import Mathlib

/-!
Verification development for the myphysicslab 2D rigid-body engine sources.

The geometry and collision functions of `StraightStraight` and `AbstractEdge`
are embedded over exact rational arithmetic; the `SimList`, `Clock` and
`SimRunner` components are embedded as explicit state-passing functions.
Methods that are abstract in `AbstractEdge` (`distanceToLine`, `getNormalBody`,
`maxDistanceTo`) are modelled as function-valued fields of the edge record,
mirroring the dynamic dispatch of the source.
-/

namespace MyPhysicsLab

/-- A 2D vector with exact rational coordinates (`myphysicslab.lab.util.Vector`). -/
structure Vec2 where
  x : ℚ
  y : ℚ
deriving DecidableEq, Repr

/-- Vector subtraction (`Vector.subtract`). -/
def Vec2.sub (a b : Vec2) : Vec2 := ⟨a.x - b.x, a.y - b.y⟩

/-- Vector addition (`Vector.add`). -/
def Vec2.addV (a b : Vec2) : Vec2 := ⟨a.x + b.x, a.y + b.y⟩

/-- Scalar multiple (`Vector.multiply`). -/
def Vec2.scale (t : ℚ) (a : Vec2) : Vec2 := ⟨t * a.x, t * a.y⟩

/-- Squared Euclidean length (`Vector.lengthSquared`). -/
def Vec2.lengthSquared (a : Vec2) : ℚ := a.x * a.x + a.y * a.y

/-- 2D cross product (z-component), used in segment intersection math. -/
def cross2 (a b : Vec2) : ℚ := a.x * b.y - a.y * b.x

/-- Modelled from the spec: the `Polygon` rigid body "owns mass, moment of
inertia, world position, orientation angle" and "exposes body-to-world and
world-to-body affine transforms".  The `Polygon` source is not in the
repository slice; only its world position and orientation (stored as the
cosine/sine of the angle) are needed by the edge functions. -/
structure BodyState where
  posX : ℚ
  posY : ℚ
  cosA : ℚ
  sinA : ℚ
deriving DecidableEq, Repr

/-- Modelled from the spec: `Polygon.getPosition`, the body's current world
position (used as the reference point for the moment arms `r1`, `r2`). -/
def BodyState.getPosition (b : BodyState) : Vec2 := ⟨b.posX, b.posY⟩

/-- Modelled from the spec: `Polygon.bodyToWorld`, the body-to-world affine
transform (rotation by the orientation angle followed by translation). -/
def BodyState.bodyToWorld (b : BodyState) (v : Vec2) : Vec2 :=
  ⟨b.posX + b.cosA * v.x - b.sinA * v.y, b.posY + b.sinA * v.x + b.cosA * v.y⟩

/-- Modelled from the spec: `Polygon.rotateBodyToWorld`, the rotation part of
the body-to-world transform (no translation), used to turn a body-coords
normal into a world-coords normal. -/
def BodyState.rotateBodyToWorld (b : BodyState) (v : Vec2) : Vec2 :=
  ⟨b.cosA * v.x - b.sinA * v.y, b.sinA * v.x + b.cosA * v.y⟩

/-- Modelled from the spec: `UtilEngine.linesIntersect`, "standard 2D
line-segment intersection math"; per the spec it "returns a point lying within
both segments' parameter range [0,1], and returns none for non-intersecting,
non-collinear segments".  `p1,p2` are the endpoints of the first segment and
`p3,p4` of the second, all in world coordinates. -/
def linesIntersect (p1 p2 p3 p4 : Vec2) : Option Vec2 :=
  let d1 := p2.sub p1
  let d2 := p4.sub p3
  let denom := cross2 d1 d2
  if denom = 0 then none
  else
    let t := cross2 (p3.sub p1) d2 / denom
    let s := cross2 (p3.sub p1) d1 / denom
    if 0 ≤ t ∧ t ≤ 1 ∧ 0 ≤ s ∧ s ≤ 1 then some (p1.addV (Vec2.scale t d1)) else none

/-- A straight edge together with the state of its owning body
(`myphysicslab.lab.engine2D.StraightEdge`).  The fields `v1`, `v2`,
`centroidRadiusCache` and `body` embed the `AbstractEdge` constructor state
(`v1_`, `v2_`, `centroidRadius_` with `none` playing the role of `NaN`, and
`body_`).  `distanceToLine`, `normalBody` and `maxDistanceTo` are abstract
methods of `AbstractEdge` whose `StraightEdge` overrides are outside this
repository slice, so they are carried as function fields: `distanceToLine`
takes a world-coords point and returns the signed distance to the edge's
line, `normalBody` returns the outward unit normal in body coords, and
`maxDistanceTo` returns the maximum distance from a body-coords point to any
point of the edge. -/
structure StraightEdge where
  body : BodyState
  v1 : Vec2
  v2 : Vec2
  distanceToLine : Vec2 → ℚ
  normalBody : Vec2 → Vec2
  centroidRadiusCache : Option ℚ
  maxDistanceTo : Vec2 → ℚ

/-- World coordinates of the edge's first vertex. -/
def StraightEdge.w1 (e : StraightEdge) : Vec2 := e.body.bodyToWorld e.v1

/-- World coordinates of the edge's second vertex. -/
def StraightEdge.w2 (e : StraightEdge) : Vec2 := e.body.bodyToWorld e.v2

/-- `StraightStraight.intersect`: intersection point of the two straight
edges' world-coordinate segments, or `none` (`null`) if no intersection. -/
def StraightStraight.intersect (edge1 edge2 : StraightEdge) : Option Vec2 :=
  linesIntersect (edge1.body.bodyToWorld edge1.v1) (edge1.body.bodyToWorld edge1.v2)
    (edge2.body.bodyToWorld edge2.v1) (edge2.body.bodyToWorld edge2.v2)

/-- The fields of an `EdgeEdgeCollision` record that the `StraightStraight`
functions read or write.  `radius1` / `radius2` are `none` when the source
stores `POSITIVE_INFINITY`. -/
structure EdgeEdgeCollision where
  impact1 : Vec2
  r1 : Vec2
  r2 : Vec2
  normal : Vec2
  distance : ℚ
  ballNormal : Bool
  ballObject : Bool
  radius1 : Option ℚ
  radius2 : Option ℚ
  normalVelocity : ℚ
  detectedTime : ℚ
deriving DecidableEq, Repr

/-- Which of the two edges supplied the normal for the fallback branch of
`StraightStraight.improveAccuracy` (the variable `e` in the source). -/
inductive WhichEdge where
  | one
  | two
deriving DecidableEq, Repr

/-- One `if (d > 0 && d < dist)` block of the fallback search in
`StraightStraight.improveAccuracy`: a candidate endpoint `ptc` at signed
distance `d` from the other edge's line replaces the best-so-far when its
distance is strictly positive and strictly smaller; `none` plays the role of
the initial `dist = POSITIVE_INFINITY` (with `pt`, `e` still null). -/
def considerCandidate (d : ℚ) (ptc : Vec2) (w : WhichEdge)
    (best : Option (ℚ × Vec2 × WhichEdge)) : Option (ℚ × Vec2 × WhichEdge) :=
  match best with
  | none => if 0 < d then some (d, ptc, w) else best
  | some (dist, _, _) => if 0 < d ∧ d < dist then some (d, ptc, w) else best

/-- The four fallback candidates of `StraightStraight.improveAccuracy`, in
source order: each of `edge2`'s world endpoints paired with its distance to
`edge1`'s line, then each of `edge1`'s world endpoints paired with its
distance to `edge2`'s line.  The tag records which edge's `distanceToLine`
(and hence normal) is involved. -/
def fallbackCandidates (edge1 edge2 : StraightEdge) : List (ℚ × Vec2 × WhichEdge) :=
  [(edge1.distanceToLine edge2.w1, edge2.w1, WhichEdge.one),
   (edge1.distanceToLine edge2.w2, edge2.w2, WhichEdge.one),
   (edge2.distanceToLine edge1.w1, edge1.w1, WhichEdge.two),
   (edge2.distanceToLine edge1.w2, edge1.w2, WhichEdge.two)]

/-- `StraightStraight.improveAccuracy`: update the collision record from the
current body transforms.  If the two edges' lines still intersect, the
intersection point is used directly; otherwise the endpoint with smallest
strictly positive distance to the opposite edge's line is used, and if no
such endpoint exists the source throws
`new Error('StraightStraight.improveAccuracy failed')`, embedded as
`Except.error`. -/
def StraightStraight.improveAccuracy (rbc : EdgeEdgeCollision)
    (edge1 edge2 : StraightEdge) : Except String EdgeEdgeCollision :=
  match StraightStraight.intersect edge1 edge2 with
  | some pt =>
      Except.ok { rbc with
        impact1 := pt
        r1 := pt.sub edge1.body.getPosition
        r2 := pt.sub edge2.body.getPosition
        normal := edge2.body.rotateBodyToWorld (edge2.normalBody pt) }
  | none =>
      let b1 := considerCandidate (edge1.distanceToLine edge2.w1) edge2.w1 WhichEdge.one none
      let b2 := considerCandidate (edge1.distanceToLine edge2.w2) edge2.w2 WhichEdge.one b1
      let b3 := considerCandidate (edge2.distanceToLine edge1.w1) edge1.w1 WhichEdge.two b2
      let b4 := considerCandidate (edge2.distanceToLine edge1.w2) edge1.w2 WhichEdge.two b3
      match b4 with
      | some (dist, pt, w) =>
          let e := match w with | WhichEdge.one => edge1 | WhichEdge.two => edge2
          Except.ok { rbc with
            distance := dist
            impact1 := pt
            r1 := pt.sub edge1.body.getPosition
            r2 := pt.sub edge2.body.getPosition
            normal := e.body.rotateBodyToWorld (e.normalBody pt) }
      | none => Except.error "StraightStraight.improveAccuracy failed"

/-- The `EdgeEdgeCollision` built by `StraightStraight.addCollision` for
impact point `pt` at time `time`.  The source computes `normalVelocity` by
`rbc.calcNormalVelocity()` from the bodies' velocities, which are outside the
geometric state modelled here, so the computed value is passed in as `nv`. -/
def StraightStraight.mkCollision (edge1 edge2 : StraightEdge) (pt : Vec2)
    (time nv : ℚ) : EdgeEdgeCollision :=
  { impact1 := pt
    r1 := pt.sub edge1.body.getPosition
    r2 := pt.sub edge2.body.getPosition
    normal := edge2.body.rotateBodyToWorld (edge2.normalBody pt)
    distance := -(1/10)
    ballNormal := false
    ballObject := false
    radius1 := none
    radius2 := none
    normalVelocity := nv
    detectedTime := time }

/-- `StraightStraight.testCollision` with edge-edge testing enabled
(`UtilityCollision.DISABLE_EDGE_EDGE` false): if the two edges' segments
intersect, a collision record at the intersection point is appended to the
collisions array (the spec describes the aggregate output as an unordered
list of candidate records; `UtilityCollision.addCollision` is modelled from
the spec as appending the new record). -/
def StraightStraight.testCollision (collisions : List EdgeEdgeCollision)
    (edge1 edge2 : StraightEdge) (time nv : ℚ) : List EdgeEdgeCollision :=
  match StraightStraight.intersect edge1 edge2 with
  | none => collisions
  | some pt => collisions ++ [StraightStraight.mkCollision edge1 edge2 pt time nv]

/-- The edge's centroid in body coordinates: the `AbstractEdge` constructor
sets `centroid_body_ = v1.add(v2).multiply(0.5)`. -/
def StraightEdge.centroidBody (e : StraightEdge) : Vec2 :=
  Vec2.scale (1/2) (e.v1.addV e.v2)

/-- `AbstractEdge.getCentroidRadius`: lazily computes the centroid radius as
`1.25 * maxDistanceTo(centroid_body_)` when the cached value is `NaN`
(modelled as `none`), otherwise returns the cached value. -/
def StraightEdge.getCentroidRadius (e : StraightEdge) : ℚ :=
  match e.centroidRadiusCache with
  | some r => r
  | none => (5/4) * e.maxDistanceTo e.centroidBody

/-- `AbstractEdge.getCentroidWorld`: the centroid transformed to world
coordinates (the source memoizes this on the body; the cache is
value-transparent). -/
def StraightEdge.getCentroidWorld (e : StraightEdge) : Vec2 :=
  e.body.bodyToWorld e.centroidBody

/-- `UtilEngine.square x = x*x`. -/
def square (x : ℚ) : ℚ := x * x

/-- `AbstractEdge.intersectionPossible`: the O(1) bounding-circle broad-phase
rejection test.  Returns whether the squared distance between the two edges'
world centroids is less than the square of the sum of the two centroid radii
plus the swell. -/
def StraightEdge.intersectionPossible (self edge : StraightEdge) (swellage : ℚ) : Bool :=
  let c1 := self.getCentroidWorld
  let c2 := edge.getCentroidWorld
  let dist := (c1.sub c2).lengthSquared
  let dist2 := square (edge.getCentroidRadius + self.getCentroidRadius + swellage)
  dist < dist2

/-- The world segments of the two edges share a point with both segment
parameters in `[0,1]` — the exact-geometric-intersection predicate for
straight edges. -/
def segmentsMeet (edge1 edge2 : StraightEdge) : Prop :=
  ∃ t s : ℚ, 0 ≤ t ∧ t ≤ 1 ∧ 0 ≤ s ∧ s ≤ 1 ∧
    edge1.w1.addV (Vec2.scale t (edge1.w2.sub edge1.w1)) =
    edge2.w1.addV (Vec2.scale s (edge2.w2.sub edge2.w1))

/-! ### Clock (`myphysicslab.lab.util.Clock`)

The source reads wall-clock time through `UtilityCore.getSystemTime()`; the
embedding passes the current system time `sysTime` explicitly to each
operation.  ClockTask execution is an external side effect; the task list
holds the scheduled task times. -/

/-- The mutable state of a `Clock`. -/
structure ClockState where
  clockStart_sys_secs : ℚ
  realStart_sys_secs : ℚ
  timeRate : ℚ
  saveTime_secs : ℚ
  saveRealTime_secs : ℚ
  isRunning : Bool
  stepMode : Bool
  tasks : List ℚ
deriving DecidableEq, Repr

/-- `Clock.getTime`: while running, `(systemTime - clockStart)*timeRate`;
while stopped, the saved clock time. -/
def Clock.getTime (c : ClockState) (sysTime : ℚ) : ℚ :=
  if c.isRunning then (sysTime - c.clockStart_sys_secs) * c.timeRate
  else c.saveTime_secs

/-- `Clock.getRealTime`: like `getTime` but against the real-time start. -/
def Clock.getRealTime (c : ClockState) (sysTime : ℚ) : ℚ :=
  if c.isRunning then (sysTime - c.realStart_sys_secs) * c.timeRate
  else c.saveRealTime_secs

/-- `Clock.pause`: when running, saves the current clock and real times,
cancels scheduled tasks (an external side effect; the task list itself is
unchanged, as in the source) and stops the clock; broadcasts `CLOCK_PAUSE`. -/
def Clock.pause (c : ClockState) (sysTime : ℚ) : ClockState :=
  if c.isRunning then
    { c with
      saveTime_secs := Clock.getTime c sysTime
      saveRealTime_secs := Clock.getRealTime c sysTime
      isRunning := false }
  else c

/-- `Clock.executeTasks`: the task times in `[startTime, startTime+timeStep]`,
which the source schedules for immediate execution. -/
def Clock.executeTasks (c : ClockState) (startTime timeStep : ℚ) : List ℚ :=
  c.tasks.filter (fun taskTime => startTime ≤ taskTime ∧ taskTime ≤ startTime + timeStep)

/-- `Clock.step`: pauses the clock, enters step mode, advances the saved
clock and real times by `timeStep`, broadcasts `CLOCK_STEP`, and executes the
tasks falling within the step (returned alongside the new state). -/
def Clock.step (c : ClockState) (sysTime timeStep : ℚ) : ClockState × List ℚ :=
  let c1 := Clock.pause c sysTime
  let startStepTime := c1.saveTime_secs
  let c2 := { c1 with
    stepMode := true
    saveTime_secs := c1.saveTime_secs + timeStep
    saveRealTime_secs := c1.saveRealTime_secs + timeStep }
  (c2, Clock.executeTasks c2 startStepTime timeStep)

/-- `Clock.isStepping`. -/
def Clock.isStepping (c : ClockState) : Bool := c.stepMode

/-- `Clock.clearStepMode`. -/
def Clock.clearStepMode (c : ClockState) : ClockState := { c with stepMode := false }

/-- `Clock.setTimePrivate`: while running, moves the clock's system start so
that the clock now reads `time_secs` (and reschedules tasks, an external side
effect); while stopped, stores `time_secs` as the saved time. -/
def Clock.setTimePrivate (c : ClockState) (sysTime time_secs : ℚ) : ClockState :=
  if c.isRunning then
    { c with clockStart_sys_secs := sysTime - time_secs / c.timeRate }
  else
    { c with saveTime_secs := time_secs }

/-- `Clock.setTime`: `setTimePrivate` plus a `CLOCK_SET_TIME` broadcast. -/
def Clock.setTime (c : ClockState) (sysTime time_secs : ℚ) : ClockState :=
  Clock.setTimePrivate c sysTime time_secs

/-- `Clock.setRealTime`. -/
def Clock.setRealTime (c : ClockState) (sysTime time_secs : ℚ) : ClockState :=
  if c.isRunning then
    { c with realStart_sys_secs := sysTime - time_secs / c.timeRate }
  else
    { c with saveRealTime_secs := time_secs }

/-! ### SimRunner (`myphysicslab.lab.app.SimRunner`)

The `AdvanceStrategy` interface is outside this repository slice; it is
carried as a record of functions over an abstract simulation state `σ`, with
`advance` returning `Except` because advancing may throw (collision-engine
errors).  Timer rescheduling, canvas painting and the user-facing alert are
external side effects not represented in the state. -/

/-- Modelled from the spec: the `AdvanceStrategy` interface ("the engine only
exposes advance simulation by a time increment and report current simulation
time"), as functions over an abstract simulation state. -/
structure AdvanceStrategy (σ : Type) where
  advance : ℚ → σ → Except String σ
  getTime : σ → ℚ

/-- Result of running the `advanceSims` while-loop: normal exit, a thrown
error, or fuel exhaustion (a model artifact only; the source loop always
either throws or terminates, since every non-throwing iteration advances the
time by more than `1e-15` toward the fixed target). -/
inductive LoopResult (σ : Type) where
  | ok (s : σ)
  | err (msg : String)
  | fuelOut
deriving DecidableEq, Repr

/-- `SimRunner.advanceSims`: repeatedly advance the strategy by `timeStep`
while its time is below `targetTime`; if one advance increases the reported
simulation time by at most `1e-15`, throw
`new Error('SimRunner time did not advance')`.  An exception from
`strategy.advance` itself propagates.  `fuel` bounds the iteration count for
the embedding. -/
def SimRunner.advanceSims {σ : Type} (adv : AdvanceStrategy σ) (timeStep targetTime : ℚ) :
    ℕ → σ → LoopResult σ
  | 0, _ => LoopResult.fuelOut
  | n + 1, s =>
    let simTime := adv.getTime s
    if simTime < targetTime then
      match adv.advance timeStep s with
      | Except.error e => LoopResult.err e
      | Except.ok s' =>
        if adv.getTime s' - simTime ≤ 1 / 10 ^ 15 then
          LoopResult.err "SimRunner time did not advance"
        else
          SimRunner.advanceSims adv timeStep targetTime n s'
    else LoopResult.ok s

/-- The `SimRunner` state visible to `callback` and `handleException`:
the clock, the per-strategy simulation states (`advanceList_`), the time
step, the registered error observers (by identifier), and the log of
`notifyError` calls made so far. -/
structure SimRunnerState (σ : Type) where
  clock : ClockState
  sims : List σ
  timeStep : ℚ
  displayPeriod : ℚ
  errorObservers : List ℕ
  notifications : List (ℕ × String)

/-- `SimRunner.handleException`: pauses the Clock and notifies every
registered `ErrorObserver` with the error (the user-facing alert is an
external side effect). -/
def SimRunner.handleException {σ : Type} (r : SimRunnerState σ) (sysTime : ℚ)
    (error : String) : SimRunnerState σ :=
  { r with
    clock := Clock.pause r.clock sysTime
    notifications := r.notifications ++ r.errorObservers.map (fun o => (o, error)) }

/-- Run `advanceSims` on each strategy state in order, short-circuiting on a
thrown error — the `for` loop over `advanceList_` inside the `try` block of
`SimRunner.callback`. -/
def SimRunner.advanceAll {σ : Type} (adv : AdvanceStrategy σ) (timeStep targetTime : ℚ)
    (fuel : ℕ) : List σ → LoopResult (List σ)
  | [] => LoopResult.ok []
  | s :: rest =>
    match SimRunner.advanceSims adv timeStep targetTime fuel s with
    | LoopResult.err e => LoopResult.err e
    | LoopResult.fuelOut => LoopResult.fuelOut
    | LoopResult.ok s' =>
      match SimRunner.advanceAll adv timeStep targetTime fuel rest with
      | LoopResult.err e => LoopResult.err e
      | LoopResult.fuelOut => LoopResult.fuelOut
      | LoopResult.ok rest' => LoopResult.ok (s' :: rest')

/-- The clock-resynchronization step at the top of the running branch of
`SimRunner.callback`: when clock time is more than 1 second away from
simulation time, both clock and real time are set to
`simTime + timeStep`. -/
def SimRunner.syncClock {σ : Type} (r : SimRunnerState σ) (sysTime simTime : ℚ) :
    ClockState × ℚ :=
  let clockTime := Clock.getTime r.clock sysTime
  if clockTime > simTime + 1 ∨ clockTime < simTime - 1 then
    let t := simTime + r.timeStep
    let c1 := Clock.setTime r.clock sysTime t
    let c2 := Clock.setRealTime c1 sysTime t
    (c2, t)
  else (r.clock, clockTime)

/-- The target time used by the advance loop in `SimRunner.callback`:
"if sim reaches almost current clock time, that is good enough". -/
def SimRunner.callbackTarget {σ : Type} (r : SimRunnerState σ) (startTime : ℚ) : ℚ :=
  startTime - r.timeStep / 10

/-- `SimRunner.callback`: the Timer callback.  When the clock is paused and
not stepping it only repaints and reschedules (external side effects).
Otherwise it resynchronizes the clock if needed, advances every strategy up
to the target time inside a `try` block, then either clears step mode or
retards the clock when too far behind.  Any exception from the advancing is
caught and routed to `handleException`.  A `fuelOut` from the bounded loop is
a model artifact and leaves the state unchanged. -/
def SimRunner.callback {σ : Type} (adv : AdvanceStrategy σ) (fuel : ℕ)
    (r : SimRunnerState σ) (sysTime : ℚ) : SimRunnerState σ :=
  if ¬r.clock.isRunning ∧ ¬(Clock.isStepping r.clock) then r
  else
    match r.sims with
    | [] => r
    | s0 :: _ =>
      let simTime := adv.getTime s0
      let sync := SimRunner.syncClock r sysTime simTime
      let r1 := { r with clock := sync.1 }
      let targetTime := SimRunner.callbackTarget r1 sync.2
      match SimRunner.advanceAll adv r1.timeStep targetTime fuel r1.sims with
      | LoopResult.err e => SimRunner.handleException r1 sysTime e
      | LoopResult.fuelOut => r1
      | LoopResult.ok sims' =>
        let r2 := { r1 with sims := sims' }
        if Clock.isStepping r2.clock then
          { r2 with clock := Clock.clearStepMode r2.clock }
        else
          match sims' with
          | [] => r2
          | s0' :: _ =>
            let clockTime := Clock.getTime r2.clock sysTime
            let simTime' := adv.getTime s0'
            let limit := 20 * r2.timeStep
            if clockTime - simTime' > limit then
              { r2 with clock := Clock.setTime r2.clock sysTime simTime' }
            else r2

/-! ### SimList (`myphysicslab.lab.model.SimList`)

`SimObject`s are identified by their JavaScript object identity, embedded as
natural-number identifiers.  The `SimObject` interface (`getExpireTime`,
`similar`) is outside this repository slice and is carried as a context of
functions over identifiers.  Broadcasts are recorded in an event log. -/

/-- A broadcast made by the `SimList`: `OBJECT_ADDED` or `OBJECT_REMOVED`
carrying the affected object. -/
inductive SimEvent where
  | added (o : ℕ)
  | removed (o : ℕ)
deriving DecidableEq, Repr

/-- Modelled from the spec: the `SimObject` interface methods used by
`SimList` — `getExpireTime` (with `none` for an infinite expiration time,
so `isFinite(getExpireTime())` is `isSome`) and `similar(other, tolerance)`
(the similarity test "for filtering duplicate/ephemeral generated objects"). -/
structure SimObjectCtx where
  expireTime : ℕ → Option ℚ
  similar : ℕ → ℕ → ℚ → Bool

/-- The state of a `SimList`: its element array, its similarity tolerance
(default `0.1` in the constructor), and the log of broadcasts made. -/
structure SimListState where
  elements : List ℕ
  tolerance : ℚ
  events : List SimEvent
deriving DecidableEq, Repr

/-- A freshly constructed `SimList`: empty element array, tolerance `0.1`. -/
def SimList.init : SimListState :=
  { elements := [], tolerance := 1/10, events := [] }

/-- `SimList.getSimilar` with the default tolerance: the first element of the
array for which `obj.similar(simObj, tol)` holds, or `none`. -/
def SimList.getSimilar (ctx : SimObjectCtx) (st : SimListState) (simObj : ℕ) : Option ℕ :=
  st.elements.find? (fun obj => ctx.similar obj simObj st.tolerance)

/-- `SimList.remove`: removes the first occurrence of the object from the
array (`goog.array.remove`) and, only when it was actually present,
broadcasts `OBJECT_REMOVED`. -/
def SimList.remove (st : SimListState) (simObj : ℕ) : SimListState :=
  if st.elements.contains simObj then
    { st with
      elements := st.elements.erase simObj
      events := st.events ++ [SimEvent.removed simObj] }
  else st

/-- The `while (similar = this.getSimilar(element)) { this.remove(similar) }`
loop of `SimList.add`: repeatedly remove the first similar element until none
remains.  Terminates because each removal shortens the element array. -/
def SimList.removeAllSimilar (ctx : SimObjectCtx) (simObj : ℕ) (st : SimListState) :
    SimListState :=
  match h : SimList.getSimilar ctx st simObj with
  | none => st
  | some x =>
    have hmem : x ∈ st.elements := List.mem_of_find?_eq_some h
    have hlt : (st.elements.erase x).length < st.elements.length := by
      rw [List.length_erase_of_mem hmem]
      exact Nat.sub_lt (List.length_pos.mpr (List.ne_nil_of_mem hmem)) Nat.one_pos
    SimList.removeAllSimilar ctx simObj (SimList.remove st x)
termination_by st.elements.length
decreasing_by
  simp only [SimList.remove, List.elem_eq_true_of_mem hmem, if_true]
  exact hlt

/-- `SimList.add` for a single argument: for an element with finite
expiration time, first remove every similar element already in the list;
then push the element and broadcast `OBJECT_ADDED`, but only if it is not
already contained. -/
def SimList.add (ctx : SimObjectCtx) (st : SimListState) (element : ℕ) : SimListState :=
  let st1 :=
    if (ctx.expireTime element).isSome then SimList.removeAllSimilar ctx element st
    else st
  if st1.elements.contains element then st1
  else
    { st1 with
      elements := st1.elements ++ [element]
      events := st1.events ++ [SimEvent.added element] }

/-- `SimList.addAll`: adds each object of the list in order via `add`. -/
def SimList.addAll (ctx : SimObjectCtx) (st : SimListState) (objList : List ℕ) :
    SimListState :=
  objList.foldl (SimList.add ctx) st

/-- `SimList.removeAll`: removes each object of the list in order. -/
def SimList.removeAll (st : SimListState) (objList : List ℕ) : SimListState :=
  objList.foldl SimList.remove st

/-- The downward splice loop of `SimList.removeTemporary` expressed by
recursion on the array: elements whose expiration time is below `time` are
dropped with an `OBJECT_REMOVED` broadcast; the source iterates from the last
index to the first, so the events for later elements come first. -/
def SimList.removeTemporaryElems (ctx : SimObjectCtx) (time : ℚ) :
    List ℕ → List ℕ × List SimEvent
  | [] => ([], [])
  | obj :: rest =>
    let pr := SimList.removeTemporaryElems ctx time rest
    match ctx.expireTime obj with
    | some e => if e < time then (pr.1, pr.2 ++ [SimEvent.removed obj]) else (obj :: pr.1, pr.2)
    | none => (obj :: pr.1, pr.2)

/-- `SimList.removeTemporary`: removes the objects whose expiration time is
less than the given time, broadcasting `OBJECT_REMOVED` for each. -/
def SimList.removeTemporary (ctx : SimObjectCtx) (st : SimListState) (time : ℚ) :
    SimListState :=
  let (r, ev) := SimList.removeTemporaryElems ctx time st.elements
  { st with elements := r, events := st.events ++ ev }

/-- A mutating operation on a `SimList`, for stating invariants over
arbitrary operation sequences. -/
inductive SimOp where
  | add (o : ℕ)
  | addAll (os : List ℕ)
  | remove (o : ℕ)
  | removeAll (os : List ℕ)
  | removeTemporary (time : ℚ)
deriving DecidableEq, Repr

/-- Apply one operation to the `SimList` state. -/
def SimList.applyOp (ctx : SimObjectCtx) (st : SimListState) : SimOp → SimListState
  | SimOp.add o => SimList.add ctx st o
  | SimOp.addAll os => SimList.addAll ctx st os
  | SimOp.remove o => SimList.remove st o
  | SimOp.removeAll os => SimList.removeAll st os
  | SimOp.removeTemporary time => SimList.removeTemporary ctx st time

/-- Apply a sequence of operations, left to right. -/
def SimList.applyOps (ctx : SimObjectCtx) (st : SimListState) (ops : List SimOp) :
    SimListState :=
  ops.foldl (SimList.applyOp ctx) st

/-! ### Auxiliary definitions for the correctness statements -/

/-- The edge selected by the tag `e` in the fallback branch of
`StraightStraight.improveAccuracy`. -/
def selEdge (edge1 edge2 : StraightEdge) : WhichEdge → StraightEdge
  | WhichEdge.one => edge1
  | WhichEdge.two => edge2

/-- Folding the `if (d > 0 && d < dist)` update over a list of candidates. -/
def runCandidates (cs : List (ℚ × Vec2 × WhichEdge))
    (b : Option (ℚ × Vec2 × WhichEdge)) : Option (ℚ × Vec2 × WhichEdge) :=
  cs.foldl (fun acc c => considerCandidate c.1 c.2.1 c.2.2 acc) b

/-- The best-so-far value is correct for the processed candidates: `none`
means no candidate had strictly positive distance; `some c` means `c` is a
processed candidate of strictly positive distance that is minimal among the
strictly positive ones. -/
def BestOf (cs : List (ℚ × Vec2 × WhichEdge)) :
    Option (ℚ × Vec2 × WhichEdge) → Prop
  | none => ∀ c ∈ cs, ¬ 0 < c.1
  | some c => c ∈ cs ∧ 0 < c.1 ∧ ∀ c' ∈ cs, 0 < c'.1 → c.1 ≤ c'.1

/-! ### Concrete instances used by the witnesses -/

/-- A body at the origin with identity orientation. -/
def exBody : BodyState := ⟨0, 0, 1, 0⟩

/-- A horizontal straight edge from `(-1,0)` to `(1,0)` on `exBody`, outward
normal pointing up. -/
def exEdgeH : StraightEdge :=
  { body := exBody
    v1 := ⟨-1, 0⟩
    v2 := ⟨1, 0⟩
    distanceToLine := fun p => p.y
    normalBody := fun _ => ⟨0, 1⟩
    centroidRadiusCache := none
    maxDistanceTo := fun _ => 1 }

/-- A vertical straight edge from `(0,-1)` to `(0,1)` on `exBody`, outward
normal pointing right; it crosses `exEdgeH` at the origin. -/
def exEdgeV : StraightEdge :=
  { body := exBody
    v1 := ⟨0, -1⟩
    v2 := ⟨0, 1⟩
    distanceToLine := fun p => p.x
    normalBody := fun _ => ⟨1, 0⟩
    centroidRadiusCache := none
    maxDistanceTo := fun _ => 1 }

/-- A horizontal straight edge at height `1/200`, parallel to `exEdgeH` and
very close to it (well within the usual contact distance tolerance), outward
normal pointing up. -/
def exEdgePar : StraightEdge :=
  { body := exBody
    v1 := ⟨-1, 1/200⟩
    v2 := ⟨1, 1/200⟩
    distanceToLine := fun p => p.y - 1/200
    normalBody := fun _ => ⟨0, 1⟩
    centroidRadiusCache := none
    maxDistanceTo := fun _ => 1 }

/-- A horizontal straight edge at height `-1/100`, parallel to `exEdgeH` and
below it, outward normal pointing down: every endpoint of either edge is at
nonpositive signed distance from the other edge's line. -/
def exEdgeLow : StraightEdge :=
  { body := exBody
    v1 := ⟨-1, -1/100⟩
    v2 := ⟨1, -1/100⟩
    distanceToLine := fun p => -(p.y + 1/100)
    normalBody := fun _ => ⟨0, -1⟩
    centroidRadiusCache := none
    maxDistanceTo := fun _ => 1 }

/-- An empty collision record to refine in the witnesses. -/
def exRbc : EdgeEdgeCollision :=
  { impact1 := ⟨0, 0⟩
    r1 := ⟨0, 0⟩
    r2 := ⟨0, 0⟩
    normal := ⟨0, 1⟩
    distance := -(1/10)
    ballNormal := false
    ballObject := false
    radius1 := none
    radius2 := none
    normalVelocity := 0
    detectedTime := 0 }

/-- A `SimObject` context where every object expires at time `0` and two
objects are similar exactly when their identifiers differ by at most `1`. -/
def exCtx : SimObjectCtx :=
  { expireTime := fun _ => some 0
    similar := fun a b _ => a - b ≤ 1 ∧ b - a ≤ 1 }

/-- A strategy over `ℚ` whose state is the simulation time and whose advance
always fails — used to drive the exception path of `SimRunner.callback`. -/
def exFailStrategy : AdvanceStrategy ℚ :=
  { advance := fun _ _ => Except.error "test failure"
    getTime := fun s => s }

/-- A strategy over `ℚ` whose advance returns the state unchanged — it makes
no forward time progress. -/
def exStuckStrategy : AdvanceStrategy ℚ :=
  { advance := fun _ s => Except.ok s
    getTime := fun s => s }

/-- A running clock started at system time `0` with time rate `1`. -/
def exClock : ClockState :=
  { clockStart_sys_secs := 0
    realStart_sys_secs := 0
    timeRate := 1
    saveTime_secs := 0
    saveRealTime_secs := 0
    isRunning := true
    stepMode := false
    tasks := [] }

/-- A runner whose clock is running and whose single simulation is at time
`-1`, so the advance loop runs and hits the failing strategy. -/
def exRunner : SimRunnerState ℚ :=
  { clock := exClock
    sims := [-1]
    timeStep := 1
    displayPeriod := 1/40
    errorObservers := [7]
    notifications := [] }

/-! ## Theorems -/

/-- C10: after `Clock.step(timeStep)` the clock is not running, is in step
mode, and both the clock time and the real time read exactly their values
immediately before the call plus `timeStep`. -/
theorem clock_step_pauses_and_advances (c : ClockState) (sysTime timeStep : ℚ) :
    (Clock.step c sysTime timeStep).1.isRunning = false ∧
    Clock.isStepping (Clock.step c sysTime timeStep).1 = true ∧
    Clock.getTime (Clock.step c sysTime timeStep).1 sysTime =
      Clock.getTime c sysTime + timeStep ∧
    Clock.getRealTime (Clock.step c sysTime timeStep).1 sysTime =
      Clock.getRealTime c sysTime + timeStep := by
  by_cases h : c.isRunning <;>
    simp [Clock.step, Clock.pause, Clock.getTime, Clock.getRealTime, Clock.isStepping, h]

/-- C5: in the `SimRunner.advanceSims` loop, if an `advance` call increases
the reported simulation time by at most `1e-15` while the target time is not
yet reached, the loop throws `SimRunner time did not advance` on that very
iteration. -/
theorem advanceSims_throws_when_stuck {σ : Type} (adv : AdvanceStrategy σ)
    (timeStep targetTime : ℚ) (fuel : ℕ) (s s' : σ)
    (hlt : adv.getTime s < targetTime)
    (hadv : adv.advance timeStep s = Except.ok s')
    (hstuck : adv.getTime s' - adv.getTime s ≤ 1 / 10 ^ 15) :
    SimRunner.advanceSims adv timeStep targetTime (fuel + 1) s =
      LoopResult.err "SimRunner time did not advance" := by
  simp only [SimRunner.advanceSims, hadv, if_pos hlt, if_pos hstuck]

/-- Witness for C5: a strategy whose advance leaves the time unchanged makes
the loop throw at once. -/
theorem advanceSims_throws_when_stuck_witness :
    SimRunner.advanceSims exStuckStrategy 1 1 1 (0 : ℚ) =
      LoopResult.err "SimRunner time did not advance" :=
  advanceSims_throws_when_stuck exStuckStrategy 1 1 0 0 0
    (by norm_num [exStuckStrategy]) rfl (by norm_num [exStuckStrategy])

/-- C2: the broad-phase test has no false negatives — for edges whose world
segments share a point there is a swell `≥ 0` making `intersectionPossible`
return true; the test returns true exactly when the squared centroid distance
is below the square of the sum of the two centroid radii and the swell; and
an uncached centroid radius is computed as `1.25` times the maximum distance
from the edge's centroid to any point on the edge. -/
theorem intersectionPossible_no_false_negative (e1 e2 : StraightEdge)
    (hmeet : segmentsMeet e1 e2)
    (hr1 : 0 ≤ e1.getCentroidRadius) (hr2 : 0 ≤ e2.getCentroidRadius) :
    (∃ swell : ℚ, 0 ≤ swell ∧ e1.intersectionPossible e2 swell = true) ∧
    (∀ swell : ℚ, e1.intersectionPossible e2 swell = true ↔
      (e1.getCentroidWorld.x - e2.getCentroidWorld.x) ^ 2 +
        (e1.getCentroidWorld.y - e2.getCentroidWorld.y) ^ 2 <
      (e1.getCentroidRadius + e2.getCentroidRadius + swell) ^ 2) ∧
    (∀ e : StraightEdge, e.centroidRadiusCache = none →
      e.getCentroidRadius = (5/4) * e.maxDistanceTo e.centroidBody) := by
  have hq : 0 ≤ (e1.getCentroidWorld.sub e2.getCentroidWorld).lengthSquared := by
    simp only [Vec2.lengthSquared, Vec2.sub]
    nlinarith [mul_self_nonneg (e1.getCentroidWorld.x - e2.getCentroidWorld.x),
      mul_self_nonneg (e1.getCentroidWorld.y - e2.getCentroidWorld.y)]
  refine ⟨?_, ?_, ?_⟩
  · refine ⟨(e1.getCentroidWorld.sub e2.getCentroidWorld).lengthSquared + 1,
      by linarith, ?_⟩
    simp only [StraightEdge.intersectionPossible, square, decide_eq_true_eq]
    nlinarith [hq, hr1, hr2]
  · intro swell
    simp only [StraightEdge.intersectionPossible, square, decide_eq_true_eq]
    have h1 : (e2.getCentroidRadius + e1.getCentroidRadius + swell) *
        (e2.getCentroidRadius + e1.getCentroidRadius + swell) =
        (e1.getCentroidRadius + e2.getCentroidRadius + swell) ^ 2 := by ring
    have h2 : (e1.getCentroidWorld.sub e2.getCentroidWorld).lengthSquared =
        (e1.getCentroidWorld.x - e2.getCentroidWorld.x) ^ 2 +
        (e1.getCentroidWorld.y - e2.getCentroidWorld.y) ^ 2 := by
      simp only [Vec2.lengthSquared, Vec2.sub]; ring
    rw [h1, h2]
  · intro e he
    simp [StraightEdge.getCentroidRadius, he]

/-- Witness for C2: the crossing example edges pass the broad-phase test for
some nonnegative swell. -/
theorem intersectionPossible_no_false_negative_witness :
    ∃ swell : ℚ, 0 ≤ swell ∧ exEdgeH.intersectionPossible exEdgeV swell = true :=
  (intersectionPossible_no_false_negative exEdgeH exEdgeV
    ⟨1/2, 1/2, by norm_num, by norm_num, by norm_num, by norm_num,
      by norm_num [exEdgeH, exEdgeV, exBody, StraightEdge.w1, StraightEdge.w2,
        BodyState.bodyToWorld, Vec2.addV, Vec2.scale, Vec2.sub, Vec2.mk.injEq]⟩
    (by norm_num [exEdgeH, exBody, StraightEdge.getCentroidRadius])
    (by norm_num [exEdgeV, exBody, StraightEdge.getCentroidRadius])).1

/-- The intersection point computed by `linesIntersect` also lies on the
second segment: the two parametric representations agree. -/
theorem linesIntersect_point_on_second (p1 p2 p3 p4 : Vec2)
    (hden : cross2 (p2.sub p1) (p4.sub p3) ≠ 0) :
    p1.addV (Vec2.scale (cross2 (p3.sub p1) (p4.sub p3) / cross2 (p2.sub p1) (p4.sub p3))
        (p2.sub p1)) =
    p3.addV (Vec2.scale (cross2 (p3.sub p1) (p2.sub p1) / cross2 (p2.sub p1) (p4.sub p3))
        (p4.sub p3)) := by
  simp only [cross2, Vec2.sub] at hden
  simp only [cross2, Vec2.sub, Vec2.addV, Vec2.scale, Vec2.mk.injEq]
  constructor <;> (field_simp; ring)

/-- Soundness of `linesIntersect`: a returned point lies on both segments,
with both parameters in `[0,1]`. -/
theorem linesIntersect_some_spec (p1 p2 p3 p4 pt : Vec2)
    (h : linesIntersect p1 p2 p3 p4 = some pt) :
    ∃ t s : ℚ, 0 ≤ t ∧ t ≤ 1 ∧ 0 ≤ s ∧ s ≤ 1 ∧
      pt = p1.addV (Vec2.scale t (p2.sub p1)) ∧
      pt = p3.addV (Vec2.scale s (p4.sub p3)) := by
  unfold linesIntersect at h
  by_cases hden : cross2 (p2.sub p1) (p4.sub p3) = 0
  · simp [hden] at h
  · simp only [hden, if_false] at h
    by_cases hg : 0 ≤ cross2 (p3.sub p1) (p4.sub p3) / cross2 (p2.sub p1) (p4.sub p3) ∧
        cross2 (p3.sub p1) (p4.sub p3) / cross2 (p2.sub p1) (p4.sub p3) ≤ 1 ∧
        0 ≤ cross2 (p3.sub p1) (p2.sub p1) / cross2 (p2.sub p1) (p4.sub p3) ∧
        cross2 (p3.sub p1) (p2.sub p1) / cross2 (p2.sub p1) (p4.sub p3) ≤ 1
    · rw [if_pos hg, Option.some.injEq] at h
      obtain ⟨ht0, ht1, hs0, hs1⟩ := hg
      exact ⟨_, _, ht0, ht1, hs0, hs1, h.symm,
        h.symm.trans (linesIntersect_point_on_second p1 p2 p3 p4 hden)⟩
    · rw [if_neg hg] at h
      exact absurd h (by simp)

/-- Completeness of `linesIntersect`: if the segments share a point with
both parameters in `[0,1]` and are not parallel, that point is returned. -/
theorem linesIntersect_eq_some (p1 p2 p3 p4 pt : Vec2) (t s : ℚ)
    (hden : cross2 (p2.sub p1) (p4.sub p3) ≠ 0)
    (ht0 : 0 ≤ t) (ht1 : t ≤ 1) (hs0 : 0 ≤ s) (hs1 : s ≤ 1)
    (h1 : pt = p1.addV (Vec2.scale t (p2.sub p1)))
    (h2 : pt = p3.addV (Vec2.scale s (p4.sub p3))) :
    linesIntersect p1 p2 p3 p4 = some pt := by
  have hEq : p1.addV (Vec2.scale t (p2.sub p1)) = p3.addV (Vec2.scale s (p4.sub p3)) :=
    h1.symm.trans h2
  have hx := congrArg Vec2.x hEq
  have hy := congrArg Vec2.y hEq
  simp only [Vec2.addV, Vec2.scale, Vec2.sub] at hx hy
  have hx' : p3.x - p1.x = t * (p2.x - p1.x) - s * (p4.x - p3.x) := by linarith
  have hy' : p3.y - p1.y = t * (p2.y - p1.y) - s * (p4.y - p3.y) := by linarith
  have htc : cross2 (p3.sub p1) (p4.sub p3) / cross2 (p2.sub p1) (p4.sub p3) = t := by
    rw [div_eq_iff hden]
    simp only [cross2, Vec2.sub]
    linear_combination (p4.y - p3.y) * hx' - (p4.x - p3.x) * hy'
  have hsc : cross2 (p3.sub p1) (p2.sub p1) / cross2 (p2.sub p1) (p4.sub p3) = s := by
    rw [div_eq_iff hden]
    simp only [cross2, Vec2.sub]
    linear_combination (p2.y - p1.y) * hx' - (p2.x - p1.x) * hy'
  unfold linesIntersect
  rw [if_neg hden]
  rw [htc, hsc, if_pos ⟨ht0, ht1, hs0, hs1⟩, h1]

/-- C3: `StraightStraight.testCollision` appends exactly one collision
record, whose impact point is the (unique, transversal) intersection point of
the two world segments, when the segments intersect; and appends nothing
when the segments share no point. -/
theorem testCollision_adds_iff_intersect (cols : List EdgeEdgeCollision)
    (e1 e2 : StraightEdge) (time nv : ℚ) :
    (∀ pt t s : _, cross2 (e1.w2.sub e1.w1) (e2.w2.sub e2.w1) ≠ 0 →
      0 ≤ t → t ≤ 1 → 0 ≤ s → s ≤ 1 →
      pt = e1.w1.addV (Vec2.scale t (e1.w2.sub e1.w1)) →
      pt = e2.w1.addV (Vec2.scale s (e2.w2.sub e2.w1)) →
      StraightStraight.testCollision cols e1 e2 time nv =
        cols ++ [StraightStraight.mkCollision e1 e2 pt time nv] ∧
      (StraightStraight.mkCollision e1 e2 pt time nv).impact1 = pt) ∧
    (¬ segmentsMeet e1 e2 →
      StraightStraight.testCollision cols e1 e2 time nv = cols) := by
  constructor
  · intro pt t s hden ht0 ht1 hs0 hs1 h1 h2
    have hsome : StraightStraight.intersect e1 e2 = some pt :=
      linesIntersect_eq_some _ _ _ _ pt t s hden ht0 ht1 hs0 hs1 h1 h2
    rw [StraightStraight.testCollision, hsome]
    exact ⟨rfl, rfl⟩
  · intro hnm
    rw [StraightStraight.testCollision]
    cases hi : StraightStraight.intersect e1 e2 with
    | none => rfl
    | some pt =>
      exfalso
      obtain ⟨t, s, ht0, ht1, hs0, hs1, h1, h2⟩ :=
        linesIntersect_some_spec _ _ _ _ pt hi
      exact hnm ⟨t, s, ht0, ht1, hs0, hs1, h1.symm.trans h2⟩

/-- Witness for C3: the crossing example edges produce exactly one appended
record with the origin as impact point. -/
theorem testCollision_adds_iff_intersect_witness :
    StraightStraight.testCollision [] exEdgeH exEdgeV 0 0 =
      [StraightStraight.mkCollision exEdgeH exEdgeV ⟨0, 0⟩ 0 0] ∧
    (StraightStraight.mkCollision exEdgeH exEdgeV ⟨0, 0⟩ 0 0).impact1 = ⟨0, 0⟩ :=
  (testCollision_adds_iff_intersect [] exEdgeH exEdgeV 0 0).1 ⟨0, 0⟩ (1/2) (1/2)
    (by norm_num [exEdgeH, exEdgeV, exBody, StraightEdge.w1, StraightEdge.w2,
      BodyState.bodyToWorld, cross2, Vec2.sub])
    (by norm_num) (by norm_num) (by norm_num) (by norm_num)
    (by norm_num [exEdgeH, exBody, StraightEdge.w1, StraightEdge.w2,
      BodyState.bodyToWorld, Vec2.addV, Vec2.scale, Vec2.sub, Vec2.mk.injEq])
    (by norm_num [exEdgeV, exBody, StraightEdge.w1, StraightEdge.w2,
      BodyState.bodyToWorld, Vec2.addV, Vec2.scale, Vec2.sub, Vec2.mk.injEq])

/-- Counterexample to C6: two parallel straight edges a distance `1/200`
apart (well within the usual contact distance tolerance) have no exact
intersection, and `StraightStraight.testCollision` appends nothing — no
contact candidate is produced from the nearest-endpoint distance. -/
theorem testCollision_no_contact_candidate :
    StraightStraight.intersect exEdgeH exEdgePar = none ∧
    exEdgeH.distanceToLine exEdgePar.w1 = 1/200 ∧
    exEdgeH.distanceToLine exEdgePar.w2 = 1/200 ∧
    StraightStraight.testCollision [] exEdgeH exEdgePar 0 0 = [] := by
  have hnone : StraightStraight.intersect exEdgeH exEdgePar = none := by
    norm_num [StraightStraight.intersect, linesIntersect, cross2, Vec2.sub,
      exEdgeH, exEdgePar, exBody, BodyState.bodyToWorld]
  refine ⟨hnone, ?_, ?_, ?_⟩
  · norm_num [exEdgeH, exEdgePar, exBody, StraightEdge.w1, BodyState.bodyToWorld]
  · norm_num [exEdgeH, exEdgePar, exBody, StraightEdge.w2, BodyState.bodyToWorld]
  · rw [StraightStraight.testCollision, hnone]

/-- C6 as amended: `StraightStraight.testCollision` produces a candidate
record only when the two edges' segments exactly intersect; when `intersect`
returns nothing the collisions array is left unchanged regardless of how
close the bodies are. -/
theorem testCollision_requires_intersection (cols : List EdgeEdgeCollision)
    (e1 e2 : StraightEdge) (time nv : ℚ)
    (h : StraightStraight.intersect e1 e2 = none) :
    StraightStraight.testCollision cols e1 e2 time nv = cols := by
  rw [StraightStraight.testCollision, h]

/-- Witness for the amended C6 at the close parallel pair. -/
theorem testCollision_requires_intersection_witness :
    StraightStraight.testCollision [⟨⟨0,0⟩, ⟨0,0⟩, ⟨0,0⟩, ⟨0,1⟩, 0, false, false,
        none, none, 0, 0⟩] exEdgeH exEdgePar 0 0 =
      [⟨⟨0,0⟩, ⟨0,0⟩, ⟨0,0⟩, ⟨0,1⟩, 0, false, false, none, none, 0, 0⟩] :=
  testCollision_requires_intersection _ exEdgeH exEdgePar 0 0
    (by norm_num [StraightStraight.intersect, linesIntersect, cross2, Vec2.sub,
      exEdgeH, exEdgePar, exBody, BodyState.bodyToWorld])

/-- One `considerCandidate` step preserves the best-so-far invariant. -/
theorem bestOf_consider (pre : List (ℚ × Vec2 × WhichEdge))
    (b : Option (ℚ × Vec2 × WhichEdge)) (c : ℚ × Vec2 × WhichEdge)
    (hb : BestOf pre b) :
    BestOf (pre ++ [c]) (considerCandidate c.1 c.2.1 c.2.2 b) := by
  obtain ⟨d, p, w⟩ := c
  cases b with
  | none =>
    simp only [BestOf] at hb
    by_cases hd : 0 < d
    · simp only [considerCandidate, if_pos hd, BestOf]
      refine ⟨List.mem_append_right _ (List.mem_singleton_self _), hd, ?_⟩
      intro c' hc' hp
      rcases List.mem_append.mp hc' with h | h
      · exact absurd hp (hb c' h)
      · rw [List.mem_singleton.mp h]
    · simp only [considerCandidate, if_neg hd, BestOf]
      intro c' hc'
      rcases List.mem_append.mp hc' with h | h
      · exact hb c' h
      · rw [List.mem_singleton.mp h]; exact hd
  | some c0 =>
    obtain ⟨d0, p0, w0⟩ := c0
    obtain ⟨hmem, hpos, hmin⟩ := hb
    by_cases hd : 0 < d ∧ d < d0
    · simp only [considerCandidate, if_pos hd, BestOf]
      refine ⟨List.mem_append_right _ (List.mem_singleton_self _), hd.1, ?_⟩
      intro c' hc' hp
      rcases List.mem_append.mp hc' with h | h
      · exact le_trans (le_of_lt hd.2) (hmin c' h hp)
      · rw [List.mem_singleton.mp h]
    · simp only [considerCandidate, if_neg hd, BestOf]
      refine ⟨List.mem_append_left _ hmem, hpos, ?_⟩
      intro c' hc' hp
      rcases List.mem_append.mp hc' with h | h
      · exact hmin c' h hp
      · rw [List.mem_singleton.mp h] at hp ⊢
        push_neg at hd
        exact hd hp

/-- Folding `considerCandidate` over a candidate list preserves the
invariant, with the processed prefix extended accordingly. -/
theorem bestOf_run (cs : List (ℚ × Vec2 × WhichEdge)) :
    ∀ (b : Option (ℚ × Vec2 × WhichEdge)) (pre : List (ℚ × Vec2 × WhichEdge)),
      BestOf pre b → BestOf (pre ++ cs) (runCandidates cs b) := by
  induction cs with
  | nil =>
    intro b pre h
    simpa [runCandidates] using h
  | cons c cs ih =>
    intro b pre h
    have h2 := ih (considerCandidate c.1 c.2.1 c.2.2 b) (pre ++ [c]) (bestOf_consider pre b c h)
    simpa [runCandidates, List.append_assoc] using h2

/-- The fallback search of `StraightStraight.improveAccuracy` is the fold of
`considerCandidate` over the four candidates, starting from `none`. -/
theorem improveAccuracy_none_eq (rbc : EdgeEdgeCollision) (e1 e2 : StraightEdge)
    (h : StraightStraight.intersect e1 e2 = none) :
    StraightStraight.improveAccuracy rbc e1 e2 =
      (match runCandidates (fallbackCandidates e1 e2) none with
       | some (dist, pt, w) =>
          Except.ok { rbc with
            distance := dist
            impact1 := pt
            r1 := pt.sub e1.body.getPosition
            r2 := pt.sub e2.body.getPosition
            normal := (selEdge e1 e2 w).body.rotateBodyToWorld
              ((selEdge e1 e2 w).normalBody pt) }
       | none => Except.error "StraightStraight.improveAccuracy failed") := by
  rw [StraightStraight.improveAccuracy, h]
  rfl

/-- C1: `StraightStraight.improveAccuracy` either uses the current
intersection point — setting the impact point to it, the normal to edge2's
outward normal rotated to world coordinates, and the moment arms `r1`, `r2`
to the impact point minus each body's current position — or, when the lines
no longer intersect, refines the record from a fallback candidate endpoint
whose strictly positive distance to the opposite edge's line is smallest,
with the distance recorded and the normal taken from the edge whose
`distanceToLine` was used. -/
theorem improveAccuracy_cases (rbc : EdgeEdgeCollision) (e1 e2 : StraightEdge) :
    (∀ pt, StraightStraight.intersect e1 e2 = some pt →
      StraightStraight.improveAccuracy rbc e1 e2 = Except.ok { rbc with
        impact1 := pt
        r1 := pt.sub e1.body.getPosition
        r2 := pt.sub e2.body.getPosition
        normal := e2.body.rotateBodyToWorld (e2.normalBody pt) }) ∧
    (StraightStraight.intersect e1 e2 = none →
      ∀ r, StraightStraight.improveAccuracy rbc e1 e2 = Except.ok r →
        ∃ c ∈ fallbackCandidates e1 e2,
          0 < c.1 ∧
          (∀ c' ∈ fallbackCandidates e1 e2, 0 < c'.1 → c.1 ≤ c'.1) ∧
          r = { rbc with
            distance := c.1
            impact1 := c.2.1
            r1 := c.2.1.sub e1.body.getPosition
            r2 := c.2.1.sub e2.body.getPosition
            normal := (selEdge e1 e2 c.2.2).body.rotateBodyToWorld
              ((selEdge e1 e2 c.2.2).normalBody c.2.1) }) := by
  constructor
  · intro pt hsome
    rw [StraightStraight.improveAccuracy, hsome]
  · intro hnone r hok
    rw [improveAccuracy_none_eq rbc e1 e2 hnone] at hok
    have hbest := bestOf_run (fallbackCandidates e1 e2) none [] (by intro c hc; cases hc)
    rw [List.nil_append] at hbest
    cases hr : runCandidates (fallbackCandidates e1 e2) none with
    | none =>
      rw [hr] at hok
      exact absurd hok (by simp)
    | some c =>
      obtain ⟨d, p, w⟩ := c
      rw [hr] at hok hbest
      obtain ⟨hmem, hpos, hmin⟩ := hbest
      refine ⟨(d, p, w), hmem, hpos, hmin, ?_⟩
      simpa using hok.symm

/-- Witness for C1: refining the record for the crossing example edges sets
the impact point to their intersection at the origin. -/
theorem improveAccuracy_cases_witness :
    StraightStraight.improveAccuracy exRbc exEdgeH exEdgeV = Except.ok { exRbc with
      impact1 := ⟨0, 0⟩
      r1 := Vec2.sub ⟨0, 0⟩ exEdgeH.body.getPosition
      r2 := Vec2.sub ⟨0, 0⟩ exEdgeV.body.getPosition
      normal := exEdgeV.body.rotateBodyToWorld (exEdgeV.normalBody ⟨0, 0⟩) } :=
  (improveAccuracy_cases exRbc exEdgeH exEdgeV).1 ⟨0, 0⟩
    (by norm_num [StraightStraight.intersect, linesIntersect, cross2, Vec2.sub,
      Vec2.addV, Vec2.scale, exEdgeH, exEdgeV, exBody, BodyState.bodyToWorld,
      Vec2.mk.injEq])

/-- C4: when the two edges no longer intersect and no endpoint of either
edge has strictly positive distance to the opposite edge's line,
`StraightStraight.improveAccuracy` raises the error
`StraightStraight.improveAccuracy failed` instead of returning normally. -/
theorem improveAccuracy_error_when_degenerate (rbc : EdgeEdgeCollision)
    (e1 e2 : StraightEdge)
    (hnone : StraightStraight.intersect e1 e2 = none)
    (hnp : ∀ c ∈ fallbackCandidates e1 e2, c.1 ≤ 0) :
    StraightStraight.improveAccuracy rbc e1 e2 =
      Except.error "StraightStraight.improveAccuracy failed" := by
  rw [improveAccuracy_none_eq rbc e1 e2 hnone]
  cases hr : runCandidates (fallbackCandidates e1 e2) none with
  | none => rfl
  | some c =>
    exfalso
    obtain ⟨d, p, w⟩ := c
    have hbest := bestOf_run (fallbackCandidates e1 e2) none [] (by intro c hc; cases hc)
    rw [List.nil_append, hr] at hbest
    obtain ⟨hmem, hpos, _⟩ := hbest
    exact absurd hpos (not_lt.mpr (hnp _ hmem))

/-- Witness for C4: two parallel edges with all endpoint distances
nonpositive make the refinement throw. -/
theorem improveAccuracy_error_when_degenerate_witness :
    StraightStraight.improveAccuracy exRbc exEdgeH exEdgeLow =
      Except.error "StraightStraight.improveAccuracy failed" :=
  improveAccuracy_error_when_degenerate exRbc exEdgeH exEdgeLow
    (by norm_num [StraightStraight.intersect, linesIntersect, cross2, Vec2.sub,
      exEdgeH, exEdgeLow, exBody, BodyState.bodyToWorld])
    (by
      intro c hc
      simp only [fallbackCandidates, List.mem_cons, List.mem_singleton] at hc
      rcases hc with h | h | h | h | h <;>
        simp_all [exEdgeH, exEdgeLow, exBody, StraightEdge.w1, StraightEdge.w2,
          BodyState.bodyToWorld] <;> norm_num)

/-- `Clock.pause` always leaves the clock not running. -/
theorem clock_pause_not_running (c : ClockState) (t : ℚ) :
    (Clock.pause c t).isRunning = false := by
  by_cases h : c.isRunning <;> simp [Clock.pause, h]

/-- C7: when an exception is raised while advancing the simulations inside
`SimRunner.callback`, the callback routes it to `handleException`, which
pauses the Clock and notifies every registered `ErrorObserver` with the
error. -/
theorem callback_routes_errors {σ : Type} (adv : AdvanceStrategy σ) (fuel : ℕ)
    (r : SimRunnerState σ) (sysTime : ℚ) (s0 : σ) (rest : List σ) (e : String)
    (hsims : r.sims = s0 :: rest)
    (hrun : r.clock.isRunning = true ∨ Clock.isStepping r.clock = true)
    (herr : SimRunner.advanceAll adv r.timeStep
        ((SimRunner.syncClock r sysTime (adv.getTime s0)).2 - r.timeStep / 10)
        fuel r.sims = LoopResult.err e) :
    (SimRunner.callback adv fuel r sysTime).clock.isRunning = false ∧
    ∀ o ∈ r.errorObservers,
      (o, e) ∈ (SimRunner.callback adv fuel r sysTime).notifications := by
  have hcond : ¬(¬(r.clock.isRunning = true) ∧ ¬(Clock.isStepping r.clock = true)) := by
    rcases hrun with h | h <;> simp [h]
  rw [hsims] at herr
  simp only [SimRunner.callback, SimRunner.callbackTarget, hsims]
  rw [if_neg hcond]
  simp only [herr, SimRunner.handleException]
  refine ⟨clock_pause_not_running _ _, ?_⟩
  intro o ho
  exact List.mem_append_right _ (List.mem_map.mpr ⟨o, ho, rfl⟩)

/-- Witness for C7: a strategy that always throws makes the callback pause
the clock and notify the registered observer. -/
theorem callback_routes_errors_witness :
    (SimRunner.callback exFailStrategy 1 exRunner 0).clock.isRunning = false ∧
    (7, "test failure") ∈ (SimRunner.callback exFailStrategy 1 exRunner 0).notifications := by
  have h := callback_routes_errors exFailStrategy 1 exRunner 0 (-1) [] "test failure"
    rfl (Or.inl rfl)
    (by norm_num [SimRunner.advanceAll, SimRunner.advanceSims, SimRunner.syncClock,
      Clock.getTime, exRunner, exClock, exFailStrategy])
  exact ⟨h.1, h.2 7 (by norm_num [exRunner])⟩

/-- Unfolding lemma for the similar-removal loop of `SimList.add`. -/
theorem removeAllSimilar_eq (ctx : SimObjectCtx) (o : ℕ) (st : SimListState) :
    SimList.removeAllSimilar ctx o st =
      match SimList.getSimilar ctx st o with
      | none => st
      | some x => SimList.removeAllSimilar ctx o (SimList.remove st x) := by
  rw [SimList.removeAllSimilar]
  split
  · next h => rw [h]
  · next x h => simp only [h]

/-- Erasing one occurrence of an element failing the filter predicate does
not change the filtered list. -/
theorem filter_erase_of_pos (p : ℕ → Bool) (x : ℕ) (hx : p x = true) :
    ∀ l : List ℕ, (l.erase x).filter (fun y => !p y) = l.filter (fun y => !p y) := by
  intro l
  induction l with
  | nil => rfl
  | cons a l ih =>
    by_cases hax : a = x
    · subst hax
      rw [List.erase_cons_head]
      simp [List.filter_cons, hx]
    · rw [List.erase_cons_tail (by simpa using hax)]
      simp only [List.filter_cons]
      cases hpa : (!p a) <;> simp [hpa, ih]

/-- Specification of the similar-removal loop: the element array becomes the
original filtered of everything similar to the new object, the tolerance is
unchanged, old events are kept, and every similar element gets an
`OBJECT_REMOVED` event. -/
theorem removeAllSimilar_spec (ctx : SimObjectCtx) (o : ℕ) :
    ∀ (n : ℕ) (st : SimListState), st.elements.length ≤ n →
      (SimList.removeAllSimilar ctx o st).elements =
        st.elements.filter (fun x => !ctx.similar x o st.tolerance) ∧
      (SimList.removeAllSimilar ctx o st).tolerance = st.tolerance ∧
      (∀ ev ∈ st.events, ev ∈ (SimList.removeAllSimilar ctx o st).events) ∧
      (∀ x ∈ st.elements, ctx.similar x o st.tolerance = true →
        SimEvent.removed x ∈ (SimList.removeAllSimilar ctx o st).events) := by
  intro n
  induction n with
  | zero =>
    intro st hlen
    have hnil : st.elements = [] := List.eq_nil_of_length_eq_zero (Nat.le_zero.mp hlen)
    have hfind : SimList.getSimilar ctx st o = none := by
      simp [SimList.getSimilar, hnil]
    rw [removeAllSimilar_eq, hfind]
    refine ⟨by simp [hnil], rfl, fun ev hev => hev, ?_⟩
    intro x hx
    rw [hnil] at hx
    cases hx
  | succ n ih =>
    intro st hlen
    rw [removeAllSimilar_eq]
    cases hfind : SimList.getSimilar ctx st o with
    | none =>
      have hall : ∀ x ∈ st.elements, ¬(ctx.similar x o st.tolerance = true) :=
        fun x hx => by
          have := List.find?_eq_none.mp hfind x hx
          simpa using this
      refine ⟨?_, rfl, fun ev hev => hev, ?_⟩
      · rw [List.filter_eq_self.mpr]
        intro a ha
        simpa using hall a ha
      · intro x hx hsim
        exact absurd hsim (hall x hx)
    | some x =>
      have hmem : x ∈ st.elements := List.mem_of_find?_eq_some hfind
      have hsimx : ctx.similar x o st.tolerance = true := by
        have := List.find?_some hfind
        simpa using this
      have hcont : st.elements.contains x = true := List.elem_eq_true_of_mem hmem
      have hremove : SimList.remove st x =
          { st with
            elements := st.elements.erase x
            events := st.events ++ [SimEvent.removed x] } := by
        rw [SimList.remove, if_pos hcont]
      have hlen' : (SimList.remove st x).elements.length ≤ n := by
        rw [hremove]
        simp only [List.length_erase_of_mem hmem]
        omega
      obtain ⟨ih1, ih2, ih3, ih4⟩ := ih (SimList.remove st x) hlen'
      refine ⟨?_, ?_, ?_, ?_⟩
      · rw [ih1, hremove]
        exact filter_erase_of_pos _ x hsimx _
      · rw [ih2, hremove]
      · intro ev hev
        refine ih3 ev ?_
        rw [hremove]
        exact List.mem_append_left _ hev
      · intro y hy hsimy
        by_cases hyx : y = x
        · subst hyx
          refine ih3 (SimEvent.removed y) ?_
          rw [hremove]
          exact List.mem_append_right _ (List.mem_singleton_self _)
        · refine ih4 y ?_ ?_
          · rw [hremove]
            exact (List.mem_erase_of_ne hyx).mpr hy
          · rw [hremove]
            exact hsimy

/-- C8: adding a `SimObject` with finite expiration time first removes every
similar object already in the list (broadcasting `OBJECT_REMOVED` for each),
so that afterwards the list contains the added object and no other object
similar to it. -/
theorem simList_add_removes_similar (ctx : SimObjectCtx) (st : SimListState)
    (element : ℕ) (hfin : (ctx.expireTime element).isSome = true) :
    element ∈ (SimList.add ctx st element).elements ∧
    (∀ x ∈ (SimList.add ctx st element).elements, x ≠ element →
      ctx.similar x element st.tolerance = false) ∧
    (∀ x ∈ st.elements, ctx.similar x element st.tolerance = true →
      SimEvent.removed x ∈ (SimList.add ctx st element).events) := by
  obtain ⟨h1, h2, h3, h4⟩ :=
    removeAllSimilar_spec ctx element st.elements.length st le_rfl
  rw [SimList.add]
  simp only [hfin, if_true]
  by_cases hcont : (SimList.removeAllSimilar ctx element st).elements.contains element
  · rw [if_pos hcont]
    refine ⟨by simpa using hcont, ?_, h4⟩
    intro x hx _
    rw [h1] at hx
    have := List.of_mem_filter hx
    simpa using this
  · rw [if_neg hcont]
    refine ⟨?_, ?_, ?_⟩
    · exact List.mem_append_right _ (List.mem_singleton_self _)
    · intro x hx hxe
      rcases List.mem_append.mp hx with h | h
      · rw [h1] at h
        have := List.of_mem_filter h
        simpa using this
      · exact absurd (List.mem_singleton.mp h) hxe
    · intro x hx hsim
      exact List.mem_append_left _ (h4 x hx hsim)

/-- Witness for C8: adding object `5` (finite expiration under `exCtx`) puts
it into the list. -/
theorem simList_add_removes_similar_witness :
    5 ∈ (SimList.add exCtx SimList.init 5).elements :=
  (simList_add_removes_similar exCtx SimList.init 5 rfl).1

/-- `SimList.add` preserves the no-duplicates invariant: it pushes the
element only when it is not already contained. -/
theorem simList_add_nodup (ctx : SimObjectCtx) (st : SimListState) (o : ℕ)
    (h : st.elements.Nodup) : ((SimList.add ctx st o).elements).Nodup := by
  rw [SimList.add]
  have hst1 : (if (ctx.expireTime o).isSome then SimList.removeAllSimilar ctx o st
      else st).elements.Nodup := by
    by_cases hfin : (ctx.expireTime o).isSome
    · rw [if_pos hfin]
      obtain ⟨h1, _, _, _⟩ := removeAllSimilar_spec ctx o st.elements.length st le_rfl
      rw [h1]
      exact h.filter _
    · rw [if_neg hfin]
      exact h
  by_cases hcont : (if (ctx.expireTime o).isSome then SimList.removeAllSimilar ctx o st
      else st).elements.contains o
  · rw [if_pos hcont]
    exact hst1
  · rw [if_neg hcont]
    simp only [List.nodup_append, List.nodup_singleton]
    refine ⟨hst1, trivial, ?_⟩
    intro a ha hb
    rw [List.mem_singleton.mp hb] at ha
    exact hcont (List.elem_eq_true_of_mem ha)

/-- `SimList.addAll` preserves the no-duplicates invariant. -/
theorem simList_addAll_nodup (ctx : SimObjectCtx) (os : List ℕ) :
    ∀ st : SimListState, st.elements.Nodup →
      ((SimList.addAll ctx st os).elements).Nodup := by
  induction os with
  | nil => intro st h; exact h
  | cons o os ih =>
    intro st h
    exact ih (SimList.add ctx st o) (simList_add_nodup ctx st o h)

/-- `SimList.remove` preserves the no-duplicates invariant. -/
theorem simList_remove_nodup (st : SimListState) (o : ℕ)
    (h : st.elements.Nodup) : ((SimList.remove st o).elements).Nodup := by
  rw [SimList.remove]
  by_cases hc : st.elements.contains o
  · rw [if_pos hc]
    exact h.erase o
  · rw [if_neg hc]
    exact h

/-- `SimList.removeAll` preserves the no-duplicates invariant. -/
theorem simList_removeAll_nodup (os : List ℕ) :
    ∀ st : SimListState, st.elements.Nodup →
      ((SimList.removeAll st os).elements).Nodup := by
  induction os with
  | nil => intro st h; exact h
  | cons o os ih =>
    intro st h
    exact ih (SimList.remove st o) (simList_remove_nodup st o h)

/-- The survivors of `removeTemporary` form a sublist of the original
array. -/
theorem removeTemporaryElems_sublist (ctx : SimObjectCtx) (time : ℚ) :
    ∀ l : List ℕ, List.Sublist (SimList.removeTemporaryElems ctx time l).1 l := by
  intro l
  induction l with
  | nil => exact List.Sublist.refl _
  | cons a l ih =>
    rw [SimList.removeTemporaryElems]
    cases hx : ctx.expireTime a with
    | none => exact List.Sublist.cons₂ a ih
    | some e =>
      dsimp only
      by_cases he : e < time
      · rw [if_pos he]
        exact List.Sublist.cons a ih
      · rw [if_neg he]
        exact List.Sublist.cons₂ a ih

/-- Every `SimList` operation preserves the no-duplicates invariant. -/
theorem simList_applyOp_nodup (ctx : SimObjectCtx) (st : SimListState) (op : SimOp)
    (h : st.elements.Nodup) : ((SimList.applyOp ctx st op).elements).Nodup := by
  cases op with
  | add o => exact simList_add_nodup ctx st o h
  | addAll os => exact simList_addAll_nodup ctx os st h
  | remove o => exact simList_remove_nodup st o h
  | removeAll os => exact simList_removeAll_nodup os st h
  | removeTemporary time =>
    exact (removeTemporaryElems_sublist ctx time st.elements).nodup h

/-- C9: starting from a freshly constructed `SimList`, any sequence of
`add`, `addAll`, `remove`, `removeAll` and `removeTemporary` operations
leaves the element array without duplicates — every `SimObject` occurs at
most once. -/
theorem simList_never_duplicates (ctx : SimObjectCtx) (ops : List SimOp) :
    ((SimList.applyOps ctx SimList.init ops).elements).Nodup := by
  have hgen : ∀ (ops : List SimOp) (st : SimListState), st.elements.Nodup →
      ((SimList.applyOps ctx st ops).elements).Nodup := by
    intro ops
    induction ops with
    | nil => intro st h; exact h
    | cons op ops ih =>
      intro st h
      exact ih (SimList.applyOp ctx st op) (simList_applyOp_nodup ctx st op h)
  exact hgen ops SimList.init List.nodup_nil

end MyPhysicsLab
